import Mathlib

/-!
Verification of the time-series decomposition and resampling pipeline of
the traffic-analytics dashboard (`st_app.py`).

The shallow embedding below models the pipeline over exact rationals:
- the window-oddification helper `_odd` (here `makeOdd`) and the adaptive
  STL window derivation (`seasonalW`, `trendW`, source lines 280-283);
- the `n >= 48` decomposition guard (lines 276-277, 355-356);
- the additive decomposition results of both methods (lines 279-290);
- the residual rolling aggregates, in particular `abs_sum`
  (lines 300-302);
- the resampler with per-field mean/sum aggregation (lines 200-204 and
  536-539);
- top-N extremum marking `_mark` (lines 213-216);
- the inner join of the base grid with an external-factor grid (line 540);
- `winsorize` (lines 102-108), modelled with an explicit frame heap so
  that the copy-then-mutate behaviour is visible.

Machine floats are modelled by `ℚ`; a missing value (NaN) is `none` in an
`Option ℚ`.
-/

namespace StApp

/-- The fixed seasonal period used by the app for hourly data
(source line 278: `period = 24`). -/
def period : ℕ := 24

/-- Source `_odd` (lines 280-281): `k = int(max(3, k)); return k if k % 2 == 1
else k + 1`.  Python integers are modelled by `ℤ`. -/
def makeOdd (k : ℤ) : ℤ :=
  let k := max 3 k
  if k % 2 = 1 then k else k + 1

/-- Source line 282: `seasonal_w = _odd(min(max(11, period), max(7, n // 8)))`
with `period = 24`.  `n` is the series length, so the Python floor division
is `Nat` division. -/
def seasonalW (n : ℕ) : ℤ :=
  makeOdd (min (max 11 (period : ℤ)) (max 7 ((n / 8 : ℕ) : ℤ)))

/-- Source line 283: `trend_w = _odd(min(max(35, period * 5), max(7, n // 2)))`. -/
def trendW (n : ℕ) : ℤ :=
  makeOdd (min (max 35 ((period : ℤ) * 5)) (max 7 ((n / 2 : ℕ) : ℤ)))

/-- C6: for every integer `k`, `makeOdd` is idempotent, and its result is an
odd integer `≥ 3`. -/
theorem makeOdd_idempotent_odd_ge_three (k : ℤ) :
    makeOdd (makeOdd k) = makeOdd k ∧ Odd (makeOdd k) ∧ 3 ≤ makeOdd k := by
  simp only [makeOdd, Int.odd_iff]
  split_ifs <;> omega

/-- C3: for a 744-point hourly series with period 24, the robust method's
adaptively derived windows are both odd, with `seasonalW ≤ 93 = 744 / 8`
and `trendW ≤ 372 = 744 / 2`. -/
theorem stl_windows_744 :
    Odd (seasonalW 744) ∧ Odd (trendW 744) ∧
      seasonalW 744 ≤ 93 ∧ trendW 744 ≤ 372 := by
  have hs : seasonalW 744 = 25 := by decide
  have ht : trendW 744 = 121 := by decide
  refine ⟨?_, ?_, ?_, ?_⟩
  · rw [hs]; exact ⟨12, by norm_num⟩
  · rw [ht]; exact ⟨60, by norm_num⟩
  · rw [hs]; norm_num
  · rw [ht]; norm_num

/-- Result of an additive decomposition: four aligned sequences over the index
0 .. n-1.  `observed` and `seasonal` are total; `trend` and `resid` may be
undefined (`none`) at positions the library leaves as NaN. -/
structure DecompResult where
  observed : List ℚ
  trend : List (Option ℚ)
  seasonal : List ℚ
  resid : List (Option ℚ)

/-- Modelled from the spec: the centered moving-average trend of the classical
method (`seasonal_decompose`, called at source line 289; its body lives in
statsmodels, outside this repository).  For the even period 24 the trend at
`i` averages the 25 points `i-12 .. i+12` with half weights at the two ends;
per the spec it is undefined within half a window of either series edge. -/
def classicalTrend (x : List ℚ) (i : ℕ) : Option ℚ :=
  if 12 ≤ i ∧ i + 12 < x.length then
    some ((x.getD (i - 12) 0 + x.getD (i + 12) 0) / 48 +
      ((List.range 23).map (fun j => x.getD (i - 11 + j) 0)).sum / 24)
  else none

/-- Modelled from the spec: the classical detrended series, observed minus
trend, undefined where the trend is undefined. -/
def classicalDetrended (x : List ℚ) (i : ℕ) : Option ℚ :=
  (classicalTrend x i).map (fun t => x.getD i 0 - t)

/-- Modelled from the spec: the classical phase average at phase `j`: the
mean of the defined detrended values at positions congruent to `j` mod 24. -/
def classicalPhaseAvg (x : List ℚ) (j : ℕ) : ℚ :=
  let vals := (List.range x.length).filterMap
    (fun i => if i % period = j then classicalDetrended x i else none)
  vals.sum / vals.length

/-- Modelled from the spec: the classical seasonal value at phase `j`, the
phase average centred by the mean of the 24 phase averages. -/
def classicalSeasonalAt (x : List ℚ) (j : ℕ) : ℚ :=
  classicalPhaseAvg x j -
    ((List.range period).map (classicalPhaseAvg x)).sum / (period : ℚ)

/-- Modelled from the spec: `seasonal_decompose(ts_hourly, model='additive',
period=period)` at source line 289: fixed-period additive decomposition; the
residual is observed minus trend minus seasonal, undefined at the edge
positions where the trend is undefined. -/
def seasonalDecompose (x : List ℚ) : DecompResult where
  observed := x
  trend := (List.range x.length).map (classicalTrend x)
  seasonal := (List.range x.length).map (fun i => classicalSeasonalAt x (i % period))
  resid := (List.range x.length).map (fun i =>
    (classicalTrend x i).map (fun t =>
      x.getD i 0 - t - classicalSeasonalAt x (i % period)))

/-- Modelled from the spec: the robust method's trend estimate (STL, called at
source line 285; the LOESS iterations live in statsmodels, outside this
repository).  The spec requires only that the robust trend leaves no edge
gaps; it is modelled as a full-domain moving average of half-width
`trendW n / 2`, truncated at the series edges. -/
def stlTrendAt (x : List ℚ) (i : ℕ) : ℚ :=
  let w := (trendW x.length).toNat / 2
  let lo := i - w
  let hi := min (x.length - 1) (i + w)
  let vals := (List.range (hi + 1 - lo)).map (fun j => x.getD (lo + j) 0)
  vals.sum / vals.length

/-- Modelled from the spec: the robust method's seasonal value at phase `j`,
the mean of the detrended values at positions congruent to `j` mod 24. -/
def stlSeasonalAt (x : List ℚ) (j : ℕ) : ℚ :=
  let vals := (List.range x.length).filterMap
    (fun i => if i % period = j then some (x.getD i 0 - stlTrendAt x i) else none)
  vals.sum / vals.length

/-- Modelled from the spec: `STL(ts_hourly, period, seasonal_w, trend_w,
robust=True).fit()` at source lines 285-287.  The library defines the
residual as observed minus seasonal minus trend; the robust trend and the
residual are defined on the full domain. -/
def stlFit (x : List ℚ) : DecompResult where
  observed := x
  trend := (List.range x.length).map (fun i => some (stlTrendAt x i))
  seasonal := (List.range x.length).map (fun i => stlSeasonalAt x (i % period))
  resid := (List.range x.length).map (fun i =>
    some (x.getD i 0 - stlSeasonalAt x (i % period) - stlTrendAt x i))

/-- The method selector at source lines 267-272: STL (robust) or classical
seasonal decompose (additive). -/
inductive Algo where
  | stl
  | classical
deriving DecidableEq

/-- The branch at source lines 279-290 dispatching on the selected method. -/
def fitDecomposition (x : List ℚ) : Algo → DecompResult
  | Algo.stl => stlFit x
  | Algo.classical => seasonalDecompose x

/-- Outcome of the decomposition section: either a result, or the
insufficient-data state carrying the stated required minimum
(source line 356 shows the message with the minimum 48). -/
inductive DecompOutcome where
  | result : DecompResult → DecompOutcome
  | insufficientData : ℕ → DecompOutcome

/-- Source lines 276-277 and 355-356: the engine runs only behind the
`n >= 48` guard; below it the app shows the insufficient-data message. -/
def runDecomposition (x : List ℚ) (a : Algo) : DecompOutcome :=
  if 48 ≤ x.length then DecompOutcome.result (fitDecomposition x a)
  else DecompOutcome.insufficientData 48

/-- C1: for every forward-filled hourly series of length at least 48,
under either decomposition method, the four output sequences have equal
length (hence identical index 0..n-1), and at every position where the trend
is defined the residual is also defined and
`|observed - (trend + seasonal + resid)| < ε` for every positive `ε`. -/
theorem decomposition_additive_identity (x : List ℚ) (a : Algo) (ε : ℚ)
    (hn : 48 ≤ x.length) (hε : 0 < ε) :
    ((fitDecomposition x a).observed.length = x.length ∧
     (fitDecomposition x a).trend.length = x.length ∧
     (fitDecomposition x a).seasonal.length = x.length ∧
     (fitDecomposition x a).resid.length = x.length) ∧
    ∀ i t, (fitDecomposition x a).trend[i]? = some (some t) →
      ∃ v s, (fitDecomposition x a).resid[i]? = some (some v) ∧
        (fitDecomposition x a).seasonal[i]? = some s ∧
        |(fitDecomposition x a).observed.getD i 0 - (t + s + v)| < ε := by
  cases a with
  | stl =>
    constructor
    · simp [fitDecomposition, stlFit]
    · intro i t ht
      simp only [fitDecomposition, stlFit, List.getElem?_map] at ht
      have hi : i < x.length := by
        by_contra hcon
        rw [List.getElem?_eq_none (by simpa using Nat.le_of_not_lt hcon)] at ht
        simp at ht
      rw [List.getElem?_range hi] at ht
      simp only [Option.map_some', Option.some.injEq] at ht
      refine ⟨x.getD i 0 - stlSeasonalAt x (i % period) - stlTrendAt x i,
        stlSeasonalAt x (i % period), ?_, ?_, ?_⟩
      · simp [fitDecomposition, stlFit, List.getElem?_map, List.getElem?_range hi]
      · simp [fitDecomposition, stlFit, List.getElem?_map, List.getElem?_range hi]
      · simp only [fitDecomposition, stlFit]
        rw [← ht]
        have h0 : x.getD i 0 - (stlTrendAt x i + stlSeasonalAt x (i % period) +
            (x.getD i 0 - stlSeasonalAt x (i % period) - stlTrendAt x i)) = 0 := by
          ring
        rw [h0, abs_zero]
        exact hε
  | classical =>
    constructor
    · simp [fitDecomposition, seasonalDecompose]
    · intro i t ht
      simp only [fitDecomposition, seasonalDecompose, List.getElem?_map] at ht
      have hi : i < x.length := by
        by_contra hcon
        rw [List.getElem?_eq_none (by simpa using Nat.le_of_not_lt hcon)] at ht
        simp at ht
      rw [List.getElem?_range hi] at ht
      simp only [Option.map_some', Option.some.injEq] at ht
      refine ⟨x.getD i 0 - t - classicalSeasonalAt x (i % period),
        classicalSeasonalAt x (i % period), ?_, ?_, ?_⟩
      · simp [fitDecomposition, seasonalDecompose, List.getElem?_map,
          List.getElem?_range hi, ht]
      · simp [fitDecomposition, seasonalDecompose, List.getElem?_map,
          List.getElem?_range hi]
      · simp only [fitDecomposition, seasonalDecompose]
        have h0 : x.getD i 0 - (t + classicalSeasonalAt x (i % period) +
            (x.getD i 0 - t - classicalSeasonalAt x (i % period))) = 0 := by
          ring
        rw [h0, abs_zero]
        exact hε

/-- Witness for C1 at the concrete 48-point constant series with `ε = 1`. -/
theorem decomposition_additive_identity_witness :
    48 ≤ (List.replicate 48 (0 : ℚ)).length ∧ (0 : ℚ) < 1 ∧
    (((fitDecomposition (List.replicate 48 (0 : ℚ)) Algo.stl).observed.length =
        (List.replicate 48 (0 : ℚ)).length ∧
      (fitDecomposition (List.replicate 48 (0 : ℚ)) Algo.stl).trend.length =
        (List.replicate 48 (0 : ℚ)).length ∧
      (fitDecomposition (List.replicate 48 (0 : ℚ)) Algo.stl).seasonal.length =
        (List.replicate 48 (0 : ℚ)).length ∧
      (fitDecomposition (List.replicate 48 (0 : ℚ)) Algo.stl).resid.length =
        (List.replicate 48 (0 : ℚ)).length) ∧
    ∀ i t, (fitDecomposition (List.replicate 48 (0 : ℚ)) Algo.stl).trend[i]? =
        some (some t) →
      ∃ v s, (fitDecomposition (List.replicate 48 (0 : ℚ)) Algo.stl).resid[i]? =
          some (some v) ∧
        (fitDecomposition (List.replicate 48 (0 : ℚ)) Algo.stl).seasonal[i]? = some s ∧
        |(fitDecomposition (List.replicate 48 (0 : ℚ)) Algo.stl).observed.getD i 0 -
          (t + s + v)| < 1) :=
  ⟨by simp, by norm_num,
    decomposition_additive_identity (List.replicate 48 (0 : ℚ)) Algo.stl 1
      (by simp) (by norm_num)⟩

/-- C2: the engine runs only behind the `n ≥ 48 = 2 * period` guard: for
`n < 48` it produces no result and signals the insufficient-data state
stating the required minimum 48, while for every series of length at least
48 it produces a result. -/
theorem decomposition_guard (x : List ℚ) (a : Algo) (hn : x.length < 48) :
    runDecomposition x a = DecompOutcome.insufficientData 48 ∧
    (∀ r, runDecomposition x a ≠ DecompOutcome.result r) ∧
    48 = 2 * period ∧
    ∀ y : List ℚ, 48 ≤ y.length →
      runDecomposition y a = DecompOutcome.result (fitDecomposition y a) := by
  refine ⟨?_, ?_, rfl, ?_⟩
  · unfold runDecomposition
    rw [if_neg (by omega)]
  · intro r h
    unfold runDecomposition at h
    rw [if_neg (by omega)] at h
    exact DecompOutcome.noConfusion h
  · intro y hy
    unfold runDecomposition
    rw [if_pos hy]

/-- Witness for C2 at the concrete series of length 40 from the spec
scenario. -/
theorem decomposition_guard_witness :
    (List.replicate 40 (0 : ℚ)).length < 48 ∧
    (runDecomposition (List.replicate 40 (0 : ℚ)) Algo.stl =
        DecompOutcome.insufficientData 48 ∧
      (∀ r, runDecomposition (List.replicate 40 (0 : ℚ)) Algo.stl ≠
        DecompOutcome.result r) ∧
      48 = 2 * period ∧
      ∀ y : List ℚ, 48 ≤ y.length →
        runDecomposition y Algo.stl = DecompOutcome.result (fitDecomposition y Algo.stl)) :=
  ⟨by simp, decomposition_guard (List.replicate 40 (0 : ℚ)) Algo.stl (by simp)⟩

/-- One rolling window: with `min_periods=1`, the window ending at position
`i` of width `w` covers indices `max 0 (i+1-w) .. i`. -/
def rollingWindow (w : ℕ) (xs : List ℚ) (i : ℕ) : List ℚ :=
  (xs.take (i + 1)).drop (i + 1 - w)

/-- `Series.rolling(w, min_periods=1).sum()` over a gap-free series. -/
def rollingSum (w : ℕ) (xs : List ℚ) : List ℚ :=
  (List.range xs.length).map (fun i => (rollingWindow w xs i).sum)

/-- Source lines 300-302: for `roll_stat = "abs_sum"` the rolling aggregate
of the residual is `resid.abs().rolling(roll_h, min_periods=1).sum()`, the
rolling sum of the absolute values. -/
def residRollAbsSum (w : ℕ) (resid : List ℚ) : List ℚ :=
  rollingSum w (resid.map (fun v => |v|))

/-- C4: the `abs_sum` rolling aggregate equals the rolling sum of the
absolute values of the residual (sum of the pointwise `|residual|` over each
window), not the absolute value of the rolling sum; on the window covering
`[-5, 5, -3]` it yields 13, not `|-5+5-3| = 3`. -/
theorem abs_sum_is_sum_of_abs (resid : List ℚ) (w i : ℕ)
    (hi : i < resid.length) :
    (residRollAbsSum w resid)[i]? =
      some (((rollingWindow w resid i).map (fun v => |v|)).sum) ∧
    (residRollAbsSum 3 [-5, 5, -3])[2]? = some 13 ∧
    (13 : ℚ) ≠ |(-5 : ℚ) + 5 + -3| := by
  refine ⟨?_, ?_, by norm_num⟩
  case refine_2 =>
    simp [residRollAbsSum, rollingSum, rollingWindow, List.range_succ]
    norm_num
  have hi2 : i < (resid.map (fun v => |v|)).length := by simpa using hi
  simp only [residRollAbsSum, rollingSum, List.getElem?_map,
    List.getElem?_range hi2, Option.map_some', Option.some.injEq]
  simp [rollingWindow, List.map_take, List.map_drop]

/-- Witness for C4 on the residual series `[-5, 5, -3]` with a 3-wide
window at the last position. -/
theorem abs_sum_is_sum_of_abs_witness :
    (2 : ℕ) < ([-5, 5, -3] : List ℚ).length ∧
    ((residRollAbsSum 3 [-5, 5, -3])[2]? =
        some (((rollingWindow 3 ([-5, 5, -3] : List ℚ) 2).map (fun v => |v|)).sum) ∧
      (residRollAbsSum 3 [-5, 5, -3])[2]? = some 13 ∧
      (13 : ℚ) ≠ |(-5 : ℚ) + 5 + -3|) :=
  ⟨by decide, abs_sum_is_sum_of_abs [-5, 5, -3] 3 2 (by decide)⟩

/-- Resampling frequency (source lines 200 and 536): hourly or daily. -/
inductive Rule where
  | hourly
  | daily
deriving DecidableEq

/-- Timestamps are modelled in whole hours; `resample('H')` buckets a
timestamp to its hour and `resample('D')` to its day. -/
def bucketOf : Rule → ℕ → ℕ
  | Rule.hourly, t => t
  | Rule.daily, t => t / 24

/-- The source values falling into bucket `b`. -/
def bucketValues (records : List (ℕ × ℚ)) (rule : Rule) (b : ℕ) : List ℚ :=
  records.filterMap (fun p => if bucketOf rule p.1 = b then some p.2 else none)

/-- Mean aggregation (volume and speed fields, source lines 203 and 538):
pandas leaves an empty bucket as NaN, modelled as `none`. -/
def meanAgg (vs : List ℚ) : Option ℚ :=
  if vs.length = 0 then none else some (vs.sum / (vs.length : ℚ))

/-- Sum aggregation (the incidents field, source line 538): pandas sums an
empty bucket to 0, so the result is always defined. -/
def sumAgg (vs : List ℚ) : Option ℚ :=
  some vs.sum

/-- The bucket grid spanning `[min ts, max ts]` of the records. -/
def gridBuckets (records : List (ℕ × ℚ)) (rule : Rule) : List ℕ :=
  let bs := records.map (fun p => bucketOf rule p.1)
  let lo := bs.foldr min (bs.headD 0)
  let hi := bs.foldr max (bs.headD 0)
  (List.range (hi + 1 - lo)).map (fun j => lo + j)

/-- A mean-aggregated field of `resample(rule).agg(...)`. -/
def resampleMean (records : List (ℕ × ℚ)) (rule : Rule) : List (ℕ × Option ℚ) :=
  (gridBuckets records rule).map
    (fun b => (b, meanAgg (bucketValues records rule b)))

/-- A sum-aggregated field of `resample(rule).agg(...)`. -/
def resampleSum (records : List (ℕ × ℚ)) (rule : Rule) : List (ℕ × Option ℚ) :=
  (gridBuckets records rule).map
    (fun b => (b, sumAgg (bucketValues records rule b)))

/-- C5 counterexample: with source points only at hours 0 and 2, the hourly
grid contains the empty bucket 1, and the sum-aggregated field receives the
value 0 there — not a missing value, contradicting the claim that every
aggregated field of an empty bucket is missing. -/
theorem empty_bucket_sum_zero_cex :
    gridBuckets [((0 : ℕ), (1 : ℚ)), (2, 4)] Rule.hourly = [0, 1, 2] ∧
    bucketValues [((0 : ℕ), (1 : ℚ)), (2, 4)] Rule.hourly 1 = [] ∧
    (1, (some 0 : Option ℚ)) ∈ resampleSum [((0 : ℕ), (1 : ℚ)), (2, 4)] Rule.hourly ∧
    (1, (none : Option ℚ)) ∉ resampleSum [((0 : ℕ), (1 : ℚ)), (2, 4)] Rule.hourly := by
  refine ⟨by decide, by decide, by decide, by decide⟩

/-- C5 as amended: a grid bucket with no source points receives a missing
value for every mean-aggregated field (volume, speed), but a sum-aggregated
field (incident counts) receives zero there. -/
theorem empty_bucket_missing_mean_zero_sum (records : List (ℕ × ℚ))
    (rule : Rule) (b : ℕ) (hb : b ∈ gridBuckets records rule)
    (he : bucketValues records rule b = []) :
    (b, (none : Option ℚ)) ∈ resampleMean records rule ∧
    (b, (some 0 : Option ℚ)) ∈ resampleSum records rule := by
  constructor
  · have : (b, meanAgg (bucketValues records rule b)) ∈ resampleMean records rule :=
      List.mem_map_of_mem _ hb
    rwa [he] at this
  · have : (b, sumAgg (bucketValues records rule b)) ∈ resampleSum records rule :=
      List.mem_map_of_mem _ hb
    rwa [he] at this

/-- Witness for the amended C5 at the concrete records with an empty hourly
bucket at hour 1. -/
theorem empty_bucket_missing_mean_zero_sum_witness :
    (1 : ℕ) ∈ gridBuckets [((0 : ℕ), (1 : ℚ)), (2, 4)] Rule.hourly ∧
    bucketValues [((0 : ℕ), (1 : ℚ)), (2, 4)] Rule.hourly 1 = [] ∧
    ((1, (none : Option ℚ)) ∈ resampleMean [((0 : ℕ), (1 : ℚ)), (2, 4)] Rule.hourly ∧
      (1, (some 0 : Option ℚ)) ∈ resampleSum [((0 : ℕ), (1 : ℚ)), (2, 4)] Rule.hourly) :=
  ⟨by decide, by decide,
    empty_bucket_missing_mean_zero_sum [((0 : ℕ), (1 : ℚ)), (2, 4)] Rule.hourly 1
      (by decide) (by decide)⟩

/-- C9: when a grid bucket contains exactly one source point, the mean
aggregator reproduces that point's value exactly in its bucket. -/
theorem singleton_bucket_mean_identity (records : List (ℕ × ℚ)) (rule : Rule)
    (b : ℕ) (v : ℚ) (hb : b ∈ gridBuckets records rule)
    (hv : bucketValues records rule b = [v]) :
    meanAgg (bucketValues records rule b) = some v ∧
    (b, (some v : Option ℚ)) ∈ resampleMean records rule := by
  have hm : meanAgg (bucketValues records rule b) = some v := by
    rw [hv]
    simp [meanAgg]
  refine ⟨hm, ?_⟩
  have : (b, meanAgg (bucketValues records rule b)) ∈ resampleMean records rule :=
    List.mem_map_of_mem _ hb
  rwa [hm] at this

/-- Witness for C9: hourly records at hours 0 and 1, one point per bucket. -/
theorem singleton_bucket_mean_identity_witness :
    (0 : ℕ) ∈ gridBuckets [((0 : ℕ), (5 : ℚ)), (1, 7)] Rule.hourly ∧
    bucketValues [((0 : ℕ), (5 : ℚ)), (1, 7)] Rule.hourly 0 = [5] ∧
    (meanAgg (bucketValues [((0 : ℕ), (5 : ℚ)), (1, 7)] Rule.hourly 0) = some 5 ∧
      (0, (some 5 : Option ℚ)) ∈ resampleMean [((0 : ℕ), (5 : ℚ)), (1, 7)] Rule.hourly) :=
  ⟨by decide, by decide,
    singleton_bucket_mean_identity [((0 : ℕ), (5 : ℚ)), (1, 7)] Rule.hourly 0 5
      (by decide) (by decide)⟩

/-- `s.dropna()` with positions: the defined entries of the series paired
with their original positions, in encounter order. -/
def dropnaIdx (s : List (Option ℚ)) : List (ℕ × ℚ) :=
  s.enum.filterMap (fun p => p.2.map (fun v => (p.1, v)))

/-- The order realised by `nlargest` with the default `keep='first'`:
larger values first, ties broken by encounter order (smaller position
first). -/
def descOrder (p q : ℕ × ℚ) : Prop :=
  q.2 < p.2 ∨ (p.2 = q.2 ∧ p.1 ≤ q.1)

/-- The order realised by `nsmallest` with the default `keep='first'`:
smaller values first, ties broken by encounter order. -/
def ascOrder (p q : ℕ × ℚ) : Prop :=
  p.2 < q.2 ∨ (p.2 = q.2 ∧ p.1 ≤ q.1)

instance : DecidableRel descOrder := fun p q => by
  unfold descOrder; infer_instance

instance : DecidableRel ascOrder := fun p q => by
  unfold ascOrder; infer_instance

instance : IsTotal (ℕ × ℚ) descOrder where
  total a b := by
    unfold descOrder
    rcases lt_trichotomy a.2 b.2 with h | h | h
    · exact Or.inr (Or.inl h)
    · rcases Nat.le_total a.1 b.1 with hp | hp
      · exact Or.inl (Or.inr ⟨h, hp⟩)
      · exact Or.inr (Or.inr ⟨h.symm, hp⟩)
    · exact Or.inl (Or.inl h)

instance : IsTrans (ℕ × ℚ) descOrder where
  trans a b c hab hbc := by
    unfold descOrder at hab hbc ⊢
    rcases hab with h | ⟨he, hp⟩ <;> rcases hbc with h2 | ⟨he2, hp2⟩
    · exact Or.inl (lt_trans h2 h)
    · exact Or.inl (he2 ▸ h)
    · exact Or.inl (he ▸ h2)
    · exact Or.inr ⟨he.trans he2, le_trans hp hp2⟩

instance : IsTotal (ℕ × ℚ) ascOrder where
  total a b := by
    unfold ascOrder
    rcases lt_trichotomy a.2 b.2 with h | h | h
    · exact Or.inl (Or.inl h)
    · rcases Nat.le_total a.1 b.1 with hp | hp
      · exact Or.inl (Or.inr ⟨h, hp⟩)
      · exact Or.inr (Or.inr ⟨h.symm, hp⟩)
    · exact Or.inr (Or.inl h)

instance : IsTrans (ℕ × ℚ) ascOrder where
  trans a b c hab hbc := by
    unfold ascOrder at hab hbc ⊢
    rcases hab with h | ⟨he, hp⟩ <;> rcases hbc with h2 | ⟨he2, hp2⟩
    · exact Or.inl (lt_trans h h2)
    · exact Or.inl (he2 ▸ h)
    · exact Or.inl (he ▸ h2)
    · exact Or.inr ⟨he.trans he2, le_trans hp hp2⟩

/-- `Series.nlargest(n)` with the default `keep='first'`: the first `n`
entries of the stable descending sort of the defined entries. -/
def nlargest (n : ℕ) (s : List (Option ℚ)) : List (ℕ × ℚ) :=
  (List.insertionSort descOrder (dropnaIdx s)).take n

/-- `Series.nsmallest(n)` with the default `keep='first'`. -/
def nsmallest (n : ℕ) (s : List (Option ℚ)) : List (ℕ × ℚ) :=
  (List.insertionSort ascOrder (dropnaIdx s)).take n

/-- Source `_mark` (lines 213-216): `if n <= 0 or s.dropna().empty: return
(empty, empty); return s.nlargest(n), s.nsmallest(n)`.  The slider value `n`
is a natural number, so `n <= 0` is `n = 0`. -/
def mark (s : List (Option ℚ)) (n : ℕ) : List (ℕ × ℚ) × List (ℕ × ℚ) :=
  if n = 0 ∨ dropnaIdx s = [] then ([], [])
  else (nlargest n s, nsmallest n s)

/-- C7: `mark` with `N = 0` returns empty highs and lows (not an error);
with `N > 0` it returns `min N (number of defined entries)` highs and lows
drawn from the series with their positions, ordered with ties broken by
encounter order, and every entry left out is below every returned high
(resp. above every returned low), ties again resolved by encounter order. -/
theorem mark_topN (s : List (Option ℚ)) (n : ℕ) (hn : 0 < n) :
    mark s 0 = ([], []) ∧
    (mark s n).1.length = min n (dropnaIdx s).length ∧
    (mark s n).2.length = min n (dropnaIdx s).length ∧
    (∀ p ∈ (mark s n).1, p ∈ dropnaIdx s) ∧
    (∀ p ∈ (mark s n).2, p ∈ dropnaIdx s) ∧
    List.Sorted descOrder (mark s n).1 ∧
    List.Sorted ascOrder (mark s n).2 ∧
    (∀ p ∈ (mark s n).1, ∀ q ∈ dropnaIdx s, q ∉ (mark s n).1 → descOrder p q) ∧
    (∀ p ∈ (mark s n).2, ∀ q ∈ dropnaIdx s, q ∉ (mark s n).2 → ascOrder p q) := by
  have h0 : mark s 0 = ([], []) := by
    unfold mark
    rw [if_pos (Or.inl rfl)]
  refine ⟨h0, ?_⟩
  by_cases hd : dropnaIdx s = []
  · unfold mark
    rw [if_pos (Or.inr hd)]
    simp [hd]
  · have hcond : ¬(n = 0 ∨ dropnaIdx s = []) := by
      push_neg
      exact ⟨by omega, hd⟩
    unfold mark
    rw [if_neg hcond]
    have hpermD := List.perm_insertionSort descOrder (dropnaIdx s)
    have hpermA := List.perm_insertionSort ascOrder (dropnaIdx s)
    have hsortD := List.sorted_insertionSort descOrder (dropnaIdx s)
    have hsortA := List.sorted_insertionSort ascOrder (dropnaIdx s)
    refine ⟨?_, ?_, ?_, ?_, ?_, ?_, ?_, ?_⟩
    · simp [nlargest, List.length_take, hpermD.length_eq]
    · simp [nsmallest, List.length_take, hpermA.length_eq]
    · intro p hp
      exact hpermD.mem_iff.mp (List.mem_of_mem_take hp)
    · intro p hp
      exact hpermA.mem_iff.mp (List.mem_of_mem_take hp)
    · exact hsortD.sublist (List.take_sublist n _)
    · exact hsortA.sublist (List.take_sublist n _)
    · intro p hp q hq hq2
      have hqL : q ∈ List.insertionSort descOrder (dropnaIdx s) :=
        hpermD.mem_iff.mpr hq
      have hqdrop : q ∈ (List.insertionSort descOrder (dropnaIdx s)).drop n := by
        rcases List.mem_append.mp
            ((List.take_append_drop n (List.insertionSort descOrder (dropnaIdx s))) ▸ hqL) with
          h | h
        · exact absurd h hq2
        · exact h
      exact hsortD.rel_of_mem_take_of_mem_drop hp hqdrop
    · intro p hp q hq hq2
      have hqL : q ∈ List.insertionSort ascOrder (dropnaIdx s) :=
        hpermA.mem_iff.mpr hq
      have hqdrop : q ∈ (List.insertionSort ascOrder (dropnaIdx s)).drop n := by
        rcases List.mem_append.mp
            ((List.take_append_drop n (List.insertionSort ascOrder (dropnaIdx s))) ▸ hqL) with
          h | h
        · exact absurd h hq2
        · exact h
      exact hsortA.rel_of_mem_take_of_mem_drop hp hqdrop

/-- Witness for C7 on the series `[some 5, none, some 5, some 1]` with
`N = 2`. -/
theorem mark_topN_witness :
    (0 : ℕ) < 2 ∧
    (mark [some 5, none, some 5, some 1] 0 = ([], []) ∧
      (mark [some 5, none, some 5, some 1] 2).1.length =
        min 2 (dropnaIdx [some 5, none, some 5, some 1]).length ∧
      (mark [some 5, none, some 5, some 1] 2).2.length =
        min 2 (dropnaIdx [some 5, none, some 5, some 1]).length ∧
      (∀ p ∈ (mark [some 5, none, some 5, some 1] 2).1,
        p ∈ dropnaIdx [some 5, none, some 5, some 1]) ∧
      (∀ p ∈ (mark [some 5, none, some 5, some 1] 2).2,
        p ∈ dropnaIdx [some 5, none, some 5, some 1]) ∧
      List.Sorted descOrder (mark [some 5, none, some 5, some 1] 2).1 ∧
      List.Sorted ascOrder (mark [some 5, none, some 5, some 1] 2).2 ∧
      (∀ p ∈ (mark [some 5, none, some 5, some 1] 2).1,
        ∀ q ∈ dropnaIdx [some 5, none, some 5, some 1],
          q ∉ (mark [some 5, none, some 5, some 1] 2).1 → descOrder p q) ∧
      (∀ p ∈ (mark [some 5, none, some 5, some 1] 2).2,
        ∀ q ∈ dropnaIdx [some 5, none, some 5, some 1],
          q ∉ (mark [some 5, none, some 5, some 1] 2).2 → ascOrder p q)) :=
  ⟨by decide, mark_topN [some 5, none, some 5, some 1] 2 (by decide)⟩

/-- Source line 540: `base.join(ext_r, how='inner')` on unique timestamp
indexes: each base row is kept exactly when its timestamp bucket also occurs
in the external grid, paired with the matching external row. -/
def innerJoin {α β : Type} (base : List (ℕ × α)) (ext : List (ℕ × β)) :
    List (ℕ × α × β) :=
  base.filterMap (fun p => (List.lookup p.1 ext).map (fun w => (p.1, p.2, w)))

/-- A lookup succeeds exactly when the key occurs in the key column. -/
theorem lookup_isSome_iff {β : Type} (t : ℕ) (l : List (ℕ × β)) :
    (List.lookup t l).isSome = true ↔ t ∈ l.map Prod.fst := by
  induction l with
  | nil => simp [List.lookup]
  | cons a l ih =>
    by_cases h : t = a.1
    · have hb : (t == a.1) = true := beq_iff_eq.mpr h
      simp [List.lookup, hb, h]
    · have hb : (t == a.1) = false := beq_eq_false_iff_ne.mpr h
      simp [List.lookup, hb, ih, h]

/-- The joined key column is an in-order selection of the base key column. -/
theorem innerJoin_keys_sublist {α β : Type} (base : List (ℕ × α))
    (ext : List (ℕ × β)) :
    List.Sublist ((innerJoin base ext).map (fun r => r.1)) (base.map Prod.fst) := by
  induction base with
  | nil => simp [innerJoin]
  | cons p l ih =>
    simp only [innerJoin, List.filterMap_cons, List.map_cons] at ih ⊢
    cases hl : List.lookup p.1 ext with
    | none =>
      simp only [Option.map_none']
      exact List.Sublist.cons p.1 ih
    | some w =>
      simp only [Option.map_some', List.map_cons]
      exact List.Sublist.cons₂ p.1 ih

/-- A key occurs in the join exactly when it occurs in the base grid and its
lookup in the external grid succeeds. -/
theorem mem_innerJoin_keys {α β : Type} (t : ℕ) (base : List (ℕ × α))
    (ext : List (ℕ × β)) :
    t ∈ (innerJoin base ext).map (fun r => r.1) ↔
      t ∈ base.map Prod.fst ∧ (List.lookup t ext).isSome = true := by
  induction base with
  | nil => simp [innerJoin]
  | cons p l ih =>
    simp only [innerJoin, List.filterMap_cons] at ih ⊢
    cases hl : List.lookup p.1 ext with
    | none =>
      simp only [Option.map_none', List.map_cons]
      rw [ih]
      by_cases ht : t = p.1
      · subst ht
        simp [hl]
      · simp [ht]
    | some w =>
      simp only [Option.map_some', List.map_cons, List.mem_cons]
      rw [ih]
      by_cases ht : t = p.1
      · subst ht
        simp [hl]
      · simp [ht]

/-- The number of joined rows is the number of base rows whose key the
external grid contains. -/
theorem innerJoin_length_countP {α β : Type} (base : List (ℕ × α))
    (ext : List (ℕ × β)) :
    (innerJoin base ext).length =
      base.countP (fun p => (List.lookup p.1 ext).isSome) := by
  rw [innerJoin, List.length_filterMap_eq_countP]
  apply List.countP_congr
  intro p _
  simp [Option.isSome_map']

/-- C8: inner-joining the base grid with an external grid (both with unique
timestamp buckets) yields exactly one row per bucket present in both grids
and no others; when the external grid's buckets all lie inside the base
grid, the join has exactly as many rows as the external grid. -/
theorem inner_join_exact_rows {α β : Type} (base : List (ℕ × α))
    (ext : List (ℕ × β)) (hb : (base.map Prod.fst).Nodup)
    (he : (ext.map Prod.fst).Nodup)
    (hsub : ∀ t ∈ ext.map Prod.fst, t ∈ base.map Prod.fst) :
    (∀ t, t ∈ (innerJoin base ext).map (fun r => r.1) ↔
      t ∈ base.map Prod.fst ∧ t ∈ ext.map Prod.fst) ∧
    ((innerJoin base ext).map (fun r => r.1)).Nodup ∧
    (innerJoin base ext).length = ext.length := by
  refine ⟨?_, ?_, ?_⟩
  · intro t
    rw [mem_innerJoin_keys, lookup_isSome_iff]
  · exact List.Nodup.sublist (innerJoin_keys_sublist base ext) hb
  · rw [innerJoin_length_countP]
    have h1 : base.countP (fun p => (List.lookup p.1 ext).isSome) =
        (base.map Prod.fst).countP (fun t => (List.lookup t ext).isSome) := by
      rw [List.countP_map]
      rfl
    rw [h1, List.countP_eq_length_filter]
    have hperm : ((base.map Prod.fst).filter
        (fun t => (List.lookup t ext).isSome)).Perm (ext.map Prod.fst) := by
      rw [List.perm_ext_iff_of_nodup (hb.filter _) he]
      intro t
      rw [List.mem_filter]
      constructor
      · intro ⟨_, hs⟩
        exact (lookup_isSome_iff t ext).mp hs
      · intro htm
        exact ⟨hsub t htm, (lookup_isSome_iff t ext).mpr htm⟩
    rw [hperm.length_eq, List.length_map]

/-- Witness for C8: a base grid of 100 hourly buckets joined with an
external grid of 60 buckets, all of which overlap the base grid, yields
exactly 60 rows. -/
theorem inner_join_exact_rows_witness :
    (((List.range 100).map (fun t => (t, (0 : ℚ)))).map Prod.fst).Nodup ∧
    (((List.range 60).map (fun t => (t + 20, (0 : ℚ)))).map Prod.fst).Nodup ∧
    (∀ t ∈ ((List.range 60).map (fun t => (t + 20, (0 : ℚ)))).map Prod.fst,
      t ∈ ((List.range 100).map (fun t => (t, (0 : ℚ)))).map Prod.fst) ∧
    (innerJoin ((List.range 100).map (fun t => (t, (0 : ℚ))))
        ((List.range 60).map (fun t => (t + 20, (0 : ℚ))))).length = 60 := by
  refine ⟨by decide, by decide, by decide, ?_⟩
  have h := inner_join_exact_rows ((List.range 100).map (fun t => (t, (0 : ℚ))))
    ((List.range 60).map (fun t => (t + 20, (0 : ℚ))))
    (by decide) (by decide) (by decide)
  rw [h.2.2]
  decide

/-- A data frame for the winsorize claims: named numeric columns.  NaN-free
columns suffice here. -/
def Frame := List (String × List ℚ)

/-- pandas `Series.quantile(q)` with the default linear interpolation: the
value at fractional position `q * (n - 1)` of the sorted column, `none` on
an empty column. -/
def quantileOf (vs : List ℚ) (q : ℚ) : Option ℚ :=
  if vs.length = 0 then none
  else
    let sorted := List.insertionSort (fun a b => a ≤ b) vs
    let pos := q * ((vs.length : ℚ) - 1)
    let i := ⌊pos⌋.toNat
    let frac := pos - (⌊pos⌋ : ℚ)
    some (sorted.getD i 0 + frac * (sorted.getD (i + 1) 0 - sorted.getD i 0))

/-- Source line 107: `df[c].clip(lo, hi)` with the two winsorize quantiles
of the column itself; an empty column has no quantiles and stays unchanged. -/
def clipCol (vs : List ℚ) (q0 q1 : ℚ) : List ℚ :=
  match quantileOf vs q0, quantileOf vs q1 with
  | some lo, some hi => vs.map (fun x => min hi (max lo x))
  | _, _ => vs

/-- In-place column assignment `df[c] = col`. -/
def setCol (f : Frame) (c : String) (col : List ℚ) : Frame :=
  f.map (fun p => if p.1 = c then (p.1, col) else p)

/-- Frame column lookup `df[c]`. -/
def getCol (f : Frame) (c : String) : Option (List ℚ) :=
  List.lookup c f

/-- The loop body of `winsorize` (source lines 104-107) as it acts on the
copied frame: for each listed column present in the frame, clip it to its
own quantile range. -/
def winsorizeFrame (f : Frame) (cols : List String) (q0 q1 : ℚ) : Frame :=
  cols.foldl
    (fun df c =>
      match getCol df c with
      | some vs => setCol df c (clipCol vs q0 q1)
      | none => df)
    f

/-- Source lines 102-108, `winsorize(frame, cols, q)`, run against an
explicit heap of frames so that mutation is visible: the function copies
the caller's frame into a fresh cell (`df = frame.copy()` at line 103),
mutates only the copy, and returns a reference to the copy. -/
def winsorizeCall (h : List Frame) (r : ℕ) (cols : List String) (q0 q1 : ℚ) :
    List Frame × ℕ :=
  let df := h.getD r []
  ((h ++ [df]).set h.length (winsorizeFrame df cols q0 q1), h.length)

/-- `lookup` finds the head entry when the key matches. -/
theorem lookup_cons_self {β : Type} (k : String) (v : β) (l : List (String × β)) :
    List.lookup k ((k, v) :: l) = some v := by
  simp [List.lookup]

/-- `lookup` skips a head entry with a different key. -/
theorem lookup_cons_ne {β : Type} (k c : String) (v : β) (l : List (String × β))
    (h : c ≠ k) : List.lookup c ((k, v) :: l) = List.lookup c l := by
  have hb : (c == k) = false := beq_eq_false_iff_ne.mpr h
  simp [List.lookup, hb]

/-- `setCol` on a cons: the head is replaced when its name matches. -/
theorem setCol_cons (k : String) (v : List ℚ) (c : String) (col : List ℚ)
    (l : Frame) :
    setCol ((k, v) :: l) c col =
      (if k = c then (k, col) else (k, v)) :: setCol l c col := by
  simp only [setCol, List.map_cons]

/-- Assigning a column then reading it back yields the assigned values when
the column exists. -/
theorem getCol_setCol_self (f : Frame) (c : String) (col vs : List ℚ)
    (hv : getCol f c = some vs) : getCol (setCol f c col) c = some col := by
  induction f with
  | nil => simp [getCol, List.lookup] at hv
  | cons a l ih =>
    rcases a with ⟨k, v⟩
    rw [setCol_cons]
    by_cases h : k = c
    · subst h
      rw [if_pos rfl]
      exact lookup_cons_self k col (setCol l k col)
    · have hcne : c ≠ k := fun hh => h hh.symm
      rw [if_neg h]
      show List.lookup c ((k, v) :: setCol l c col) = some col
      rw [lookup_cons_ne k c v _ hcne]
      have hv2 : getCol l c = some vs := by
        have := (lookup_cons_ne k c v l hcne).symm.trans hv
        exact this
      exact ih hv2

/-- Assigning one column leaves every other column unchanged. -/
theorem getCol_setCol_ne (f : Frame) (c c2 : String) (col : List ℚ)
    (h : c2 ≠ c) : getCol (setCol f c col) c2 = getCol f c2 := by
  induction f with
  | nil => simp [getCol, setCol]
  | cons a l ih =>
    rcases a with ⟨k, v⟩
    rw [setCol_cons]
    by_cases h2 : c2 = k
    · subst h2
      by_cases ha : c2 = c
      · exact absurd ha h
      · rw [if_neg ha]
        show List.lookup c2 ((c2, v) :: setCol l c col) =
          List.lookup c2 ((c2, v) :: l)
        rw [lookup_cons_self, lookup_cons_self]
    · by_cases ha : k = c
      · rw [if_pos ha]
        show List.lookup c2 ((k, col) :: setCol l c col) =
          List.lookup c2 ((k, v) :: l)
        rw [lookup_cons_ne k c2 col _ h2, lookup_cons_ne k c2 v l h2]
        exact ih
      · rw [if_neg ha]
        show List.lookup c2 ((k, v) :: setCol l c col) =
          List.lookup c2 ((k, v) :: l)
        rw [lookup_cons_ne k c2 v _ h2, lookup_cons_ne k c2 v l h2]
        exact ih

/-- Columns not in the winsorize list are untouched by the loop. -/
theorem winsorizeFrame_getCol_not_mem (cols : List String) (f : Frame)
    (q0 q1 : ℚ) (c : String) (hc : c ∉ cols) :
    getCol (winsorizeFrame f cols q0 q1) c = getCol f c := by
  induction cols generalizing f with
  | nil => rfl
  | cons c0 rest ih =>
    have hne : c ≠ c0 := fun h => hc (h ▸ List.mem_cons_self c0 rest)
    have hrest : c ∉ rest := fun h => hc (List.mem_cons_of_mem c0 h)
    show getCol (winsorizeFrame
      (match getCol f c0 with
        | some vs => setCol f c0 (clipCol vs q0 q1)
        | none => f) rest q0 q1) c = getCol f c
    cases hg : getCol f c0 with
    | none => rw [ih _ hrest]
    | some vs => rw [ih _ hrest, getCol_setCol_ne _ _ _ _ hne]

/-- A listed column present in the frame comes out clipped to its own
quantile range (for a duplicate-free column list). -/
theorem winsorizeFrame_getCol_mem (cols : List String) (f : Frame)
    (q0 q1 : ℚ) (c : String) (vs : List ℚ) (hnd : cols.Nodup)
    (hc : c ∈ cols) (hv : getCol f c = some vs) :
    getCol (winsorizeFrame f cols q0 q1) c = some (clipCol vs q0 q1) := by
  induction cols generalizing f with
  | nil => exact absurd hc (List.not_mem_nil c)
  | cons c0 rest ih =>
    show getCol (winsorizeFrame
      (match getCol f c0 with
        | some vs => setCol f c0 (clipCol vs q0 q1)
        | none => f) rest q0 q1) c = some (clipCol vs q0 q1)
    by_cases he : c = c0
    · subst he
      have hrest : c ∉ rest := (List.nodup_cons.mp hnd).1
      rw [hv]
      rw [winsorizeFrame_getCol_not_mem rest _ q0 q1 c hrest]
      exact getCol_setCol_self f c _ vs hv
    · have hcr : c ∈ rest := by
        rcases List.mem_cons.mp hc with h | h
        · exact absurd h he
        · exact h
      have hnd2 : rest.Nodup := (List.nodup_cons.mp hnd).2
      cases hg : getCol f c0 with
      | none => exact ih _ hnd2 hcr hv
      | some vs0 =>
        exact ih _ hnd2 hcr ((getCol_setCol_ne f c0 c _ he).trans hv)

/-- C10: `winsorize` leaves the caller's frame (and the rest of the heap)
completely unchanged, returns a fresh frame in which every listed column
present in the input is clipped to its quantile range, and every column not
in the list is identical to the caller's. -/
theorem winsorize_copies_and_clips (h : List Frame) (r : ℕ)
    (cols : List String) (q0 q1 : ℚ) (hr : r < h.length)
    (hnd : cols.Nodup) :
    (∀ i, i < h.length →
      (winsorizeCall h r cols q0 q1).1.getD i [] = h.getD i []) ∧
    (winsorizeCall h r cols q0 q1).1.getD r [] = h.getD r [] ∧
    (∀ c, c ∉ cols →
      getCol ((winsorizeCall h r cols q0 q1).1.getD
        (winsorizeCall h r cols q0 q1).2 []) c = getCol (h.getD r []) c) ∧
    (∀ c vs, c ∈ cols → getCol (h.getD r []) c = some vs →
      getCol ((winsorizeCall h r cols q0 q1).1.getD
        (winsorizeCall h r cols q0 q1).2 []) c = some (clipCol vs q0 q1)) := by
  have hold : ∀ i, i < h.length →
      (winsorizeCall h r cols q0 q1).1.getD i [] = h.getD i [] := by
    intro i hi
    show (((h ++ [h.getD r []]).set h.length _).getD i []) = h.getD i []
    rw [List.getD_eq_getElem?_getD, List.getElem?_set_ne (by omega),
      List.getElem?_append_left hi, ← List.getD_eq_getElem?_getD]
  have hnew : (winsorizeCall h r cols q0 q1).1.getD
      (winsorizeCall h r cols q0 q1).2 [] =
      winsorizeFrame (h.getD r []) cols q0 q1 := by
    show (((h ++ [h.getD r []]).set h.length _).getD h.length []) = _
    rw [List.getD_eq_getElem?_getD,
      List.getElem?_set_self (by simp)]
    rfl
  refine ⟨hold, hold r hr, ?_, ?_⟩
  · intro c hc
    rw [hnew]
    exact winsorizeFrame_getCol_not_mem cols _ q0 q1 c hc
  · intro c vs hc hv
    rw [hnew]
    exact winsorizeFrame_getCol_mem cols _ q0 q1 c vs hnd hc hv

/-- Witness for C10 on a one-frame heap with a single listed column. -/
theorem winsorize_copies_and_clips_witness :
    (0 : ℕ) < ([[(("a" : String), ([0, 10] : List ℚ))]] : List Frame).length ∧
    (["a"] : List String).Nodup ∧
    ((∀ i, i < ([[(("a" : String), ([0, 10] : List ℚ))]] : List Frame).length →
      (winsorizeCall [[(("a" : String), ([0, 10] : List ℚ))]] 0 ["a"]
        (1/100) (99/100)).1.getD i [] =
        ([[(("a" : String), ([0, 10] : List ℚ))]] : List Frame).getD i []) ∧
    (winsorizeCall [[(("a" : String), ([0, 10] : List ℚ))]] 0 ["a"]
        (1/100) (99/100)).1.getD 0 [] =
      ([[(("a" : String), ([0, 10] : List ℚ))]] : List Frame).getD 0 [] ∧
    (∀ c, c ∉ (["a"] : List String) →
      getCol ((winsorizeCall [[(("a" : String), ([0, 10] : List ℚ))]] 0 ["a"]
          (1/100) (99/100)).1.getD
        (winsorizeCall [[(("a" : String), ([0, 10] : List ℚ))]] 0 ["a"]
          (1/100) (99/100)).2 []) c =
        getCol (([[(("a" : String), ([0, 10] : List ℚ))]] : List Frame).getD 0 []) c) ∧
    (∀ c vs, c ∈ (["a"] : List String) →
      getCol (([[(("a" : String), ([0, 10] : List ℚ))]] : List Frame).getD 0 []) c =
        some vs →
      getCol ((winsorizeCall [[(("a" : String), ([0, 10] : List ℚ))]] 0 ["a"]
          (1/100) (99/100)).1.getD
        (winsorizeCall [[(("a" : String), ([0, 10] : List ℚ))]] 0 ["a"]
          (1/100) (99/100)).2 []) c = some (clipCol vs (1/100) (99/100)))) :=
  ⟨by decide, by decide,
    winsorize_copies_and_clips [[(("a" : String), ([0, 10] : List ℚ))]] 0 ["a"]
      (1/100) (99/100) (by decide) (by decide)⟩

end StApp
